import Mathlib

/-!
Verification of the YouTube downloader's format resolver, metadata
projection, URL validator, and filename/duration formatting, as a shallow
embedding of `server.js` and `script.js`.

Conventions of the embedding:
* JS values that may be `undefined` are modelled with `Option`.
* JS truthiness on strings ("" is falsy) is `optTruthy`; on numbers
  (0 and NaN falsy) it is handled at each use site.
* `ytdl.filterFormats(formats, 'audioonly' / 'videoandaudio')` filters by
  the documented category predicates `hasAudio && !hasVideo` and
  `hasVideo && hasAudio`.
* `Array.prototype.reduce` with the `currentBitrate > bestBitrate` body is
  `maxByKey`: it keeps the earlier element on ties.
* All `res.status(400)` early returns of the download route are the
  `ResolveResult.notFound` constructor carrying the response's error string.
-/

/-- A stream descriptor as delivered by the extraction library and consumed
by `server.js` (`itag`, `qualityLabel`, `quality`, `bitrate`, `audioBitrate`,
`hasVideo`, `hasAudio`, `container`, `mimeType`). Optional fields model
possibly-`undefined` JS properties. -/
structure Format where
  itag : Int
  qualityLabel : Option String
  quality : Option String
  bitrate : Option Nat
  audioBitrate : Option Nat
  hasVideo : Bool
  hasAudio : Bool
  container : String
  mimeType : Option String
deriving DecidableEq

/-- JS truthiness of a possibly-undefined string: `undefined` and `""` are falsy. -/
def optTruthy : Option String → Bool
  | none => false
  | some s => !(s == "")

/-- Predicate of `ytdl.filterFormats(_, 'audioonly')`: `hasAudio && !hasVideo`. -/
def isAudioOnly (f : Format) : Bool := f.hasAudio && !f.hasVideo

/-- Predicate of `ytdl.filterFormats(_, 'videoandaudio')`: `hasVideo && hasAudio`. -/
def isCombined (f : Format) : Bool := f.hasVideo && f.hasAudio

/-- Key `format.audioBitrate || 0` of the audio reduce of `server.js`. -/
def aKey (f : Format) : Nat := f.audioBitrate.getD 0

/-- Key `format.bitrate || 0` of the video reduces of `server.js`. -/
def bKey (f : Format) : Nat := f.bitrate.getD 0

/-- Model of `list.reduce((best, current) => currentKey > bestKey ? current : best)`:
the accumulator starts at the first element and is replaced only on a
strictly greater key, so the first maximum in input order wins. -/
def maxByKey {α : Type} (key : α → Nat) : α → List α → α
  | best, [] => best
  | best, c :: rest => maxByKey key (if key c > key best then c else best) rest

/-- Test `quality === 'mp3' || quality === 'audio'` on the raw query parameter. -/
def qualityIsAudio : Option String → Bool
  | none => false
  | some s => s == "mp3" || s == "audio"

/-- Model of `String.prototype.replace('p', '')`: removes the first `'p'` only
(a string pattern in JS replaces a single occurrence). -/
def stripFirstP : List Char → List Char
  | [] => []
  | c :: rest => if c = 'p' then rest else c :: stripFirstP rest

/-- The quality filter of the video branch:
`f.qualityLabel === quality || f.quality === quality ||
 (f.qualityLabel && f.qualityLabel.startsWith(quality.replace('p', '')))`. -/
def qualityMatch (q : String) (f : Format) : Bool :=
  f.qualityLabel == some q || f.quality == some q ||
    (optTruthy f.qualityLabel &&
      List.isPrefixOf (stripFirstP q.data) (f.qualityLabel.getD "").data)

/-- Outcome of format resolution in `/api/download`: either a selected
descriptor or a 400 response with the given error message. -/
inductive ResolveResult
  | found (f : Format)
  | notFound (error : String)
deriving DecidableEq

/-- JS `parseInt` on a decimal string: skip leading whitespace, optional
sign, then the maximal run of leading digits; `none` models `NaN`.
(The hexadecimal `0x` auto-radix of `parseInt` is not modelled; every
string this server parses is decimal.) -/
def jsWS (c : Char) : Bool := c = ' ' || c = '\t' || c = '\n' || c = '\r'

/-- Digit run to number, most significant first. -/
def digitsToNat (l : List Char) : Nat :=
  l.foldl (fun acc c => acc * 10 + (c.toNat - '0'.toNat)) 0

/-- Leading digit run of a character list, `none` when there is none. -/
def parseDigits (l : List Char) : Option Nat :=
  match l.takeWhile Char.isDigit with
  | [] => none
  | ds => some (digitsToNat ds)

/-- See `jsWS`: the numeric value of `parseInt(s)`, `none` for `NaN`. -/
def parseIntJS (s : String) : Option Int :=
  match s.data.dropWhile jsWS with
  | '-' :: rest => (parseDigits rest).map (fun n => -(n : Int))
  | '+' :: rest => (parseDigits rest).map (fun n => (n : Int))
  | rest => (parseDigits rest).map (fun n => (n : Int))

/-- Audio branch of `/api/download` (`quality === 'mp3' || 'audio'`):
filter to audio-only formats, 400 if empty, else the maximum-`audioBitrate`
member. -/
def resolveAudio (formats : List Format) : ResolveResult :=
  match formats.filter isAudioOnly with
  | [] => .notFound "No audio formats available"
  | f :: fs => .found (maxByKey aKey f fs)

/-- Itag branch of `/api/download`:
`info.formats.find(f => f.itag === parseInt(itag))`, 400 when absent
(`parseInt` yielding `NaN` compares unequal to every itag). -/
def resolveItag (formats : List Format) (itagStr : String) : ResolveResult :=
  match parseIntJS itagStr with
  | none => .notFound "Format not available"
  | some i =>
    match formats.find? (fun f => f.itag == i) with
    | some f => .found f
    | none => .notFound "Format not available"

/-- Video branch of `/api/download`: restrict to combined video+audio
formats (400 if none); if a quality is requested, filter by `qualityMatch`
and take the maximum-`bitrate` member of the filtered set when non-empty,
else of the whole combined set; with no requested quality, the
maximum-`bitrate` member of the combined set. -/
def resolveVideo (formats : List Format) (quality : Option String) : ResolveResult :=
  match formats.filter isCombined with
  | [] => .notFound "No combined video+audio formats available. Try a different quality."
  | f :: fs =>
    if optTruthy quality then
      match (f :: fs).filter (qualityMatch (quality.getD "")) with
      | g :: gs => .found (maxByKey bKey g gs)
      | [] => .found (maxByKey bKey f fs)
    else .found (maxByKey bKey f fs)

/-- Format resolution of `/api/download`, following the source's branch
order exactly: the audio branch is tested first, then the itag branch
(guarded by the truthiness of the raw `itag` query string), then the video
branch. -/
def resolve (formats : List Format) (quality itagP : Option String) : ResolveResult :=
  if qualityIsAudio quality then resolveAudio formats
  else if optTruthy itagP then resolveItag formats (itagP.getD "")
  else resolveVideo formats quality

/-! ### Metadata projection (`getAvailableQualities` of `server.js`)

The `/api/info` route maps each raw format to an object whose `quality`
field is `qualityLabel || audioQuality || 'audio'`; `getAvailableQualities`
consumes that mapped shape. -/

/-- Mapped format shape consumed by `getAvailableQualities`. -/
structure InfoFormat where
  quality : String
  hasVideo : Bool
  hasAudio : Bool
deriving DecidableEq

/-- Model of `Set.prototype.add`: a JS `Set` preserves insertion order and
ignores re-insertions. -/
def addToSet (l : List String) (x : String) : List String :=
  if l.contains x then l else l ++ [x]

/-- Body of the `formats.forEach` loop of `getAvailableQualities`: collect
`format.quality` for every format with `hasVideo` and a truthy quality. -/
def collectStep (acc : List String) (f : InfoFormat) : List String :=
  if f.hasVideo && !(f.quality == "") then addToSet acc f.quality else acc

/-- The insertion-ordered quality set before the audio check and the sort. -/
def collectQualities (formats : List InfoFormat) : List String :=
  formats.foldl collectStep []

/-- The fixed `order` array of the sort comparator in
`getAvailableQualities`. -/
def qualityOrderList : List String :=
  ["2160p", "1440p", "1080p", "720p", "480p", "360p", "240p", "144p", "mp3"]

/-- Model of `Array.prototype.indexOf`: first index of `x`, `-1` if absent. -/
def jsIndexOf : List String → String → Int
  | [], _ => -1
  | y :: ys, x =>
    if y == x then 0
    else if jsIndexOf ys x = -1 then -1 else jsIndexOf ys x + 1

/-- Comparator key `order.indexOf(a)` of `getAvailableQualities`. -/
def orderIndex (s : String) : Int := jsIndexOf qualityOrderList s

/-- Ordering induced by the comparator `order.indexOf(a) - order.indexOf(b)`. -/
def qualityLE (a b : String) : Prop := orderIndex a ≤ orderIndex b

instance : DecidableRel qualityLE := fun a b => Int.decLe (orderIndex a) (orderIndex b)

instance : IsTotal String qualityLE := ⟨fun a b => Int.le_total (orderIndex a) (orderIndex b)⟩

instance : IsTrans String qualityLE := ⟨fun _ _ _ h h2 => le_trans h h2⟩

/-- The collected quality tokens with `'mp3'` appended when some format is
audio-only (`f.hasAudio && !f.hasVideo`), before sorting. -/
def preQualities (formats : List InfoFormat) : List String :=
  if formats.any (fun f => f.hasAudio && !f.hasVideo) then
    addToSet (collectQualities formats) "mp3"
  else collectQualities formats

/-- Function `getAvailableQualities` of `server.js`: the deduplicated token set
sorted by the fixed-order comparator. `Array.prototype.sort` with a
consistent comparator is the stable sort by that comparator (ES2019), which
`List.insertionSort` implements. -/
def getAvailableQualities (formats : List InfoFormat) : List String :=
  (preQualities formats).insertionSort qualityLE

/-! ### Duration formatting (`script.js`) -/

/-- Model of `String.prototype.padStart(2, '0')`. -/
def jsPadStart2 (s : String) : String :=
  if s.length < 2 then String.mk (List.replicate (2 - s.length) '0') ++ s else s

/-- Function `formatDuration` of `script.js`: `H:MM:SS` when `hours > 0`, else
`M:SS`, with `Math.floor` division and JS `%` on integers modelled by
`Int.fdiv` and `Int.tmod`. -/
def formatDuration (seconds : Int) : String :=
  if 0 < Int.fdiv seconds 3600 then
    toString (Int.fdiv seconds 3600) ++ ":" ++
      jsPadStart2 (toString (Int.fdiv (Int.tmod seconds 3600) 60)) ++ ":" ++
      jsPadStart2 (toString (Int.tmod seconds 60))
  else
    toString (Int.fdiv (Int.tmod seconds 3600) 60) ++ ":" ++
      jsPadStart2 (toString (Int.tmod seconds 60))

/-- Duration handling of `fetchVideoMetadata`:
`parseInt(data.duration)` then `durationSeconds ? formatDuration(...) : 'N/A'`
(`NaN` and `0` are falsy). -/
def displayDuration (d : Option String) : String :=
  match d with
  | none => "N/A"
  | some s =>
    match parseIntJS s with
    | none => "N/A"
    | some n => if n = 0 then "N/A" else formatDuration n

/-- Specification-side rendering of a number zero-padded to two digits,
used to state the `MM`/`SS` shape independently of `jsPadStart2`. -/
def specTwoDigit (n : Nat) : String := if n < 10 then "0" ++ toString n else toString n

/-! ### Filename construction (`/api/download` of `server.js`) -/

/-- Character class `[a-z0-9]` with the `i` flag, i.e. `[a-zA-Z0-9]`. -/
def isAlnumJS (c : Char) : Bool :=
  ('a' ≤ c && c ≤ 'z') || ('A' ≤ c && c ≤ 'Z') || ('0' ≤ c && c ≤ '9')

/-- Replacement performed by `title.replace(/[^a-z0-9]/gi, '_')`. -/
def sanitizeChar (c : Char) : Char := if isAlnumJS c then c else '_'

/-- Sanitized title: every non-alphanumeric character becomes `'_'`, then
`substring(0, 100)`. -/
def sanitizeTitle (title : String) : String :=
  List.asString ((title.data.map sanitizeChar).take 100)

/-- JS `a || b` on a possibly-undefined string. -/
def jsOrString (v : Option String) (d : String) : String :=
  match v with
  | none => d
  | some s => if s == "" then d else s

/-- Filename of the audio branch: `` `${title}.mp3` ``. -/
def audioFilename (title : String) : String := sanitizeTitle title ++ ".mp3"

/-- Filename of the itag branch: `` `${title}.${format.container}` ``. -/
def itagFilename (title : String) (f : Format) : String :=
  sanitizeTitle title ++ "." ++ f.container

/-- Filename of the video branch:
`` `${title}_${format.qualityLabel || quality || 'video'}.${format.container}` ``. -/
def videoFilename (title : String) (q : Option String) (f : Format) : String :=
  sanitizeTitle title ++ "_" ++ jsOrString f.qualityLabel (jsOrString q "video") ++
    "." ++ f.container

/-! ### URL validation (`script.js`)

`extractVideoId` runs two regular expressions; both are modelled as linear
scans whose per-position alternatives are mutually exclusive, which makes
the models exact for these patterns. -/

/-- ECMAScript line terminators, the characters the regex metacharacter
`.` does not match: LF, CR, LINE SEPARATOR, PARAGRAPH SEPARATOR. -/
def isLineTerm (c : Char) : Bool :=
  c = '\n' || c = '\r' || c = '\u2028' || c = '\u2029'

/-- Character class `[^&\n?#]` of the video-id capture groups (a complement
class excludes exactly the listed characters, so `'\r'` is admitted here). -/
def idChar (c : Char) : Bool := !(c == '&' || c == '\n' || c == '?' || c == '#')

/-- Literal matcher: the remainder of `s` after the leading literal `p`,
or `none` when `s` does not start with `p`. -/
def stripLit : List Char → List Char → Option (List Char)
  | [], s => some s
  | _ :: _, [] => none
  | a :: p, b :: s => if a = b then stripLit p s else none

/-- Greedy capture `([^&\n?#]+)`: the maximal non-empty run of id
characters at the start of the input. -/
def capAfter (rest : List Char) : Option (List Char) :=
  match rest.takeWhile idChar with
  | [] => none
  | cap => some cap

/-- Third alternative `youtube\.com\/embed\/` of the first pattern. -/
def matchP1Embed (s : List Char) : Option (List Char) :=
  match stripLit "youtube.com/embed/".data s with
  | some rest => capAfter rest
  | none => none

/-- Second alternative `youtu\.be\/` of the first pattern. -/
def matchP1Short (s : List Char) : Option (List Char) :=
  match stripLit "youtu.be/".data s with
  | some rest =>
    match capAfter rest with
    | some cap => some cap
    | none => matchP1Embed s
  | none => matchP1Embed s

/-- First pattern of `extractVideoId` tried at one position:
`(?:youtube\.com\/watch\?v=|youtu\.be\/|youtube\.com\/embed\/)([^&\n?#]+)`. -/
def matchP1At (s : List Char) : Option (List Char) :=
  match stripLit "youtube.com/watch?v=".data s with
  | some rest =>
    match capAfter rest with
    | some cap => some cap
    | none => matchP1Short s
  | none => matchP1Short s

/-- Unanchored search for the first pattern: earliest matching position. -/
def scanP1 : List Char → Option (List Char)
  | [] => none
  | c :: rest =>
    match matchP1At (c :: rest) with
    | some cap => some cap
    | none => scanP1 rest

/-- After a `?` or `&`: require `v=` and a non-empty capture. -/
def vCapAt : List Char → Option (List Char)
  | 'v' :: '=' :: r => capAfter r
  | _ => none

/-- Greedy `.*[?&]v=([^&\n?#]+)` tail: the rightmost viable `[?&]v=` on
the current line wins (the greedy `.*` backtracks from the right and
cannot cross a line terminator). -/
def matchP2Tail : List Char → Option (List Char)
  | [] => none
  | c :: rest =>
    if isLineTerm c then none
    else
      match matchP2Tail rest with
      | some cap => some cap
      | none => if c = '?' || c = '&' then vCapAt rest else none

/-- Second pattern of `extractVideoId` tried at one position:
`youtube\.com\/.*[?&]v=([^&\n?#]+)`. -/
def matchP2At (s : List Char) : Option (List Char) :=
  match stripLit "youtube.com/".data s with
  | some rest => matchP2Tail rest
  | none => none

/-- Unanchored search for the second pattern. -/
def scanP2 : List Char → Option (List Char)
  | [] => none
  | c :: rest =>
    match matchP2At (c :: rest) with
    | some cap => some cap
    | none => scanP2 rest

/-- Function `extractVideoId` of `script.js`: try the first pattern, then the
second; `none` models `null`. -/
def extractVideoId (url : String) : Option String :=
  match scanP1 url.data with
  | some cap => some cap.asString
  | none =>
    match scanP2 url.data with
    | some cap => some cap.asString
    | none => none

/-- Model of `String.prototype.trim` over the common whitespace set. -/
def jsTrim (s : String) : String :=
  List.asString (((s.data.dropWhile jsWS).reverse.dropWhile jsWS).reverse)

/-- Optional scheme group `(https?:\/\/)?` of `YOUTUBE_URL_REGEX`. -/
def schemeStripped (s : List Char) : List Char :=
  match stripLit "https://".data s with
  | some r => r
  | none =>
    match stripLit "http://".data s with
    | some r => r
    | none => s

/-- Optional `(www\.)?` group of `YOUTUBE_URL_REGEX`. -/
def wwwStripped (s : List Char) : List Char :=
  match stripLit "www.".data s with
  | some r => r
  | none => s

/-- Host alternation `(youtube\.com|youtu\.be)\/` of `YOUTUBE_URL_REGEX`. -/
def hostRest (s : List Char) : Option (List Char) :=
  match stripLit "youtube.com/".data s with
  | some r => some r
  | none => stripLit "youtu.be/".data s

/-- Anchored test of
`^(https?:\/\/)?(www\.)?(youtube\.com|youtu\.be)\/.+`: the final `.+`
requires one character after the host's slash that `.` matches, i.e. one
that is not a line terminator. -/
def youtubeUrlTest (url : String) : Bool :=
  match hostRest (wwwStripped (schemeStripped url.data)) with
  | some (c :: _) => !(isLineTerm c)
  | _ => false

/-- Result of `validateYouTubeUrl`: either `{valid: false, message}` or
`{valid: true, videoId}`. -/
inductive ValidationResult
  | invalid (message : String)
  | valid (videoId : String)
deriving DecidableEq

/-- Function `validateYouTubeUrl` of `script.js`: empty/whitespace input, then the
host regex, then id extraction. -/
def validateYouTubeUrl (url : String) : ValidationResult :=
  if jsTrim url = "" then .invalid "Please enter a YouTube URL"
  else if youtubeUrlTest url then
    match extractVideoId url with
    | none => .invalid "Could not extract video ID from URL"
    | some v => .valid v
  else .invalid "Please enter a valid YouTube URL"

/-! ### Concrete descriptor sets used by the spec's worked examples -/

/-- Combined 720p stream, itag 22, bitrate 2500. -/
def ex720 : Format :=
  ⟨22, some "720p", some "hd720", some 2500, some 96, true, true, "mp4", some "video/mp4"⟩

/-- Combined 480p stream, itag 18, bitrate 1200. -/
def ex480 : Format :=
  ⟨18, some "480p", some "medium", some 1200, some 96, true, true, "mp4", some "video/mp4"⟩

/-- Combined 1080p stream, bitrate 4000. -/
def ex1080 : Format :=
  ⟨37, some "1080p", some "hd1080", some 4000, some 128, true, true, "mp4", some "video/mp4"⟩

/-- Combined stream labelled exactly `1080p`, bitrate 1000. -/
def cexExact : Format :=
  ⟨137, some "1080p", some "hd1080", some 1000, some 128, true, true, "mp4", some "video/mp4"⟩

/-- Combined stream labelled `1080p60` (a resolution-prefix match for
`1080p` but not an exact one), bitrate 5000. -/
def cexSixty : Format :=
  ⟨299, some "1080p60", some "hd1080", some 5000, some 128, true, true, "mp4", some "video/mp4"⟩

/-- Audio-only stream with `audioBitrate` 128. -/
def aud128 : Format :=
  ⟨140, none, none, some 130, some 128, false, true, "m4a", some "audio/mp4"⟩

/-- Audio-only stream with `audioBitrate` 256. -/
def aud256 : Format :=
  ⟨141, none, none, some 260, some 256, false, true, "m4a", some "audio/mp4"⟩

/-- Audio-only stream whose `audioBitrate` field is absent. -/
def w9a : Format := ⟨249, none, none, none, none, false, true, "webm", none⟩

/-- Audio-only stream whose `audioBitrate` field is present but 0. -/
def w9b : Format := ⟨251, none, none, none, some 0, false, true, "webm", none⟩

/-! ### Generic facts about the `reduce`-style maximum selection -/

theorem maxByKey_le {α : Type} (key : α → Nat) (l : List α) :
    ∀ a : α, ∀ g ∈ a :: l, key g ≤ key (maxByKey key a l) := by
  induction l with
  | nil =>
    intro a g hg
    have hga : g = a := by simpa using hg
    subst hga
    simp [maxByKey]
  | cons b t ih =>
    intro a g hg
    have hstep : maxByKey key a (b :: t) = maxByKey key (if key b > key a then b else a) t := rfl
    rw [hstep]
    have hac : key a ≤ key (if key b > key a then b else a) := by
      by_cases h : key b > key a
      · rw [if_pos h]; omega
      · rw [if_neg h]
    have hbc : key b ≤ key (if key b > key a then b else a) := by
      by_cases h : key b > key a
      · rw [if_pos h]
      · rw [if_neg h]; omega
    rcases List.mem_cons.mp hg with h1 | h2
    · subst h1
      exact le_trans hac (ih _ _ (List.mem_cons_self _ _))
    · rcases List.mem_cons.mp h2 with h3 | h4
      · subst h3
        exact le_trans hbc (ih _ _ (List.mem_cons_self _ _))
      · exact ih _ g (List.mem_cons_of_mem _ h4)

theorem maxByKey_first {α : Type} (key : α → Nat) (l : List α) :
    ∀ a : α, ∃ pre post, a :: l = pre ++ maxByKey key a l :: post ∧
      ∀ g ∈ pre, key g < key (maxByKey key a l) := by
  induction l with
  | nil =>
    intro a
    exact ⟨[], [], rfl, by simp⟩
  | cons b t ih =>
    intro a
    by_cases h : key b > key a
    · have hstep : maxByKey key a (b :: t) = maxByKey key b t := by
        show maxByKey key (if key b > key a then b else a) t = maxByKey key b t
        rw [if_pos h]
      obtain ⟨pre, post, heq, hlt⟩ := ih b
      refine ⟨a :: pre, post, ?_, ?_⟩
      · rw [hstep, List.cons_append, ← heq]
      · intro g hg
        rcases List.mem_cons.mp hg with h1 | h2
        · subst h1
          have hbr : key b ≤ key (maxByKey key b t) := maxByKey_le key t b b (List.mem_cons_self _ _)
          rw [hstep]; omega
        · rw [hstep]; exact hlt g h2
    · have hstep : maxByKey key a (b :: t) = maxByKey key a t := by
        show maxByKey key (if key b > key a then b else a) t = maxByKey key a t
        rw [if_neg h]
      obtain ⟨pre, post, heq, hlt⟩ := ih a
      cases pre with
      | nil =>
        simp only [List.nil_append] at heq
        injection heq with h1 h2
        refine ⟨[], b :: t, ?_, by simp⟩
        rw [hstep, List.nil_append, ← h1]
      | cons p ps =>
        rw [List.cons_append] at heq
        injection heq with h1 h2
        have hka : key a < key (maxByKey key a t) := by
          have hin := hlt p (List.mem_cons_self _ _)
          rw [← h1] at hin
          exact hin
        refine ⟨a :: b :: ps, post, ?_, ?_⟩
        · rw [hstep, List.cons_append, List.cons_append, ← h2]
        · intro g hg
          rw [hstep]
          rcases List.mem_cons.mp hg with hg1 | hg2
          · subst hg1; exact hka
          · rcases List.mem_cons.mp hg2 with hg3 | hg4
            · subst hg3; omega
            · exact hlt g (List.mem_cons_of_mem _ hg4)

theorem maxByKey_mem {α : Type} (key : α → Nat) (l : List α) (a : α) :
    maxByKey key a l ∈ a :: l := by
  obtain ⟨pre, post, heq, _⟩ := maxByKey_first key l a
  rw [heq]
  exact List.mem_append_right pre (List.mem_cons_self _ _)

theorem maxByKey_eq_head {α : Type} (key : α → Nat) (l : List α) (a : α)
    (h : ∀ g ∈ a :: l, key g ≤ key a) : maxByKey key a l = a := by
  obtain ⟨pre, post, heq, hlt⟩ := maxByKey_first key l a
  cases pre with
  | nil =>
    simp only [List.nil_append] at heq
    injection heq with h1 _
    exact h1.symm
  | cons p ps =>
    have hp : p = a := by
      rw [List.cons_append] at heq
      injection heq with h1 _
      exact h1.symm
    have hka : key a < key (maxByKey key a l) := by
      have hin := hlt p (List.mem_cons_self _ _)
      rw [hp] at hin
      exact hin
    have hle : key (maxByKey key a l) ≤ key a := h _ (maxByKey_mem key l a)
    omega

/-! ### Branch-selection facts about `resolve` -/

theorem qualityIsAudio_eq_false {q : Option String}
    (h1 : q ≠ some "mp3") (h2 : q ≠ some "audio") : qualityIsAudio q = false := by
  cases q with
  | none => rfl
  | some t =>
    have ht1 : t ≠ "mp3" := fun h => h1 (by rw [h])
    have ht2 : t ≠ "audio" := fun h => h2 (by rw [h])
    simp [qualityIsAudio, ht1, ht2]

theorem resolve_audio_branch (formats : List Format) (q : String)
    (hq : q = "mp3" ∨ q = "audio") (itagP : Option String) :
    resolve formats (some q) itagP = resolveAudio formats := by
  have h : qualityIsAudio (some q) = true := by
    rcases hq with h | h <;> subst h <;> rfl
  simp [resolve, h]

theorem resolve_video_branch (formats : List Format) (q : Option String)
    (h1 : q ≠ some "mp3") (h2 : q ≠ some "audio") :
    resolve formats q none = resolveVideo formats q := by
  simp [resolve, qualityIsAudio_eq_false h1 h2, optTruthy]

/-! ### Claim theorems for the format resolver -/

/-- C4: for `requestedQuality = mp3`/`audio`, `resolve` restricts to
descriptors with `hasAudio` and not `hasVideo` and returns the
maximum-`audioBitrate` member, ties broken in favour of the first
descriptor in input order; an empty audio-only subset yields the 400
`NotFound` outcome. Against audio-only descriptors with `audioBitrate`
128 and 256, the 256 one is returned. -/
theorem c4_audio_best (formats : List Format) (q : String)
    (hq : q = "mp3" ∨ q = "audio") (itagP : Option String) :
    (formats.filter isAudioOnly = [] →
      resolve formats (some q) itagP = .notFound "No audio formats available") ∧
    (∀ f fs, formats.filter isAudioOnly = f :: fs →
      ∃ r pre post, resolve formats (some q) itagP = .found r ∧
        f :: fs = pre ++ r :: post ∧
        (∀ g ∈ pre, aKey g < aKey r) ∧
        (∀ g ∈ f :: fs, aKey g ≤ aKey r)) ∧
    resolve [aud128, aud256] (some "mp3") none = .found aud256 := by
  refine ⟨?_, ?_, by decide⟩
  · intro he
    rw [resolve_audio_branch formats q hq itagP]
    unfold resolveAudio
    rw [he]
  · intro f fs hf
    rw [resolve_audio_branch formats q hq itagP]
    unfold resolveAudio
    rw [hf]
    obtain ⟨pre, post, heq, hlt⟩ := maxByKey_first aKey fs f
    exact ⟨maxByKey aKey f fs, pre, post, rfl, heq, hlt, maxByKey_le aKey fs f⟩

/-- Witness for C4 at the spec's 128/256 audio pair. -/
theorem c4_audio_best_witness :
    resolve [aud128, aud256] (some "mp3") none = .found aud256 :=
  (c4_audio_best [aud128, aud256] "mp3" (Or.inl rfl) none).2.2

/-- C9: in each maximum-bitrate `reduce` of the download route, a missing
comparison field counts as 0, so a field-less descriptor is selected only
when every candidate's key is 0, and then the selection is the first
descriptor in input order; the final two conjuncts tie `maxByKey` to the
corresponding `resolve` branches. -/
theorem c9_missing_field_zero (a : Format) (l : List Format) :
    ((maxByKey aKey a l).audioBitrate = none →
      (∀ f ∈ a :: l, aKey f = 0) ∧ maxByKey aKey a l = a) ∧
    ((maxByKey bKey a l).bitrate = none →
      (∀ f ∈ a :: l, bKey f = 0) ∧ maxByKey bKey a l = a) ∧
    (∀ formats f fs, formats.filter isAudioOnly = f :: fs →
      resolve formats (some "mp3") none = .found (maxByKey aKey f fs)) ∧
    (∀ formats f fs, formats.filter isCombined = f :: fs →
      resolve formats none none = .found (maxByKey bKey f fs)) := by
  refine ⟨?_, ?_, ?_, ?_⟩
  · intro hmiss
    have hzero : aKey (maxByKey aKey a l) = 0 := by
      show (maxByKey aKey a l).audioBitrate.getD 0 = 0
      rw [hmiss]
      rfl
    have hall : ∀ f ∈ a :: l, aKey f = 0 := by
      intro f hf
      have := maxByKey_le aKey l a f hf
      omega
    refine ⟨hall, maxByKey_eq_head aKey l a ?_⟩
    intro g hg
    rw [hall g hg, hall a (List.mem_cons_self _ _)]
  · intro hmiss
    have hzero : bKey (maxByKey bKey a l) = 0 := by
      show (maxByKey bKey a l).bitrate.getD 0 = 0
      rw [hmiss]
      rfl
    have hall : ∀ f ∈ a :: l, bKey f = 0 := by
      intro f hf
      have := maxByKey_le bKey l a f hf
      omega
    refine ⟨hall, maxByKey_eq_head bKey l a ?_⟩
    intro g hg
    rw [hall g hg, hall a (List.mem_cons_self _ _)]
  · intro formats f fs hf
    rw [resolve_audio_branch formats "mp3" (Or.inl rfl) none]
    unfold resolveAudio
    rw [hf]
  · intro formats f fs hf
    rw [resolve_video_branch formats none (by simp) (by simp)]
    unfold resolveVideo
    rw [hf]
    rfl

/-- Witness for C9: with an absent `audioBitrate` and an explicit 0, the
first descriptor is selected and every key is 0. -/
theorem c9_missing_field_zero_witness :
    (∀ f ∈ [w9a, w9b], aKey f = 0) ∧ maxByKey aKey w9a [w9b] = w9a :=
  (c9_missing_field_zero w9a [w9b]).1 (by decide)

theorem resolveVideo_cons (formats : List Format) (q : String) (f : Format) (fs : List Format)
    (hf : formats.filter isCombined = f :: fs) (hne : q ≠ "") :
    resolveVideo formats (some q) =
      match (f :: fs).filter (qualityMatch q) with
      | g :: gs => .found (maxByKey bKey g gs)
      | [] => .found (maxByKey bKey f fs) := by
  unfold resolveVideo
  rw [hf]
  have ht : optTruthy (some q) = true := by
    simp only [optTruthy, Bool.not_eq_true']
    exact beq_eq_false_iff_ne.mpr hne
  rw [ht]
  rfl

/-- C1: for a video-quality request (quality set, not mp3/audio, no itag)
in which no combined descriptor passes the quality filter, `resolve`
returns a maximum-`bitrate` member of the unfiltered combined subset, and
the empty combined subset yields the 400 `NotFound` outcome; requesting
2160p against 720p (bitrate 2500) and 480p (bitrate 1200) returns the
720p descriptor. The no-match hypothesis is the source's filter predicate
(`qualityLabel`/`quality` equality or resolution-prefix match) holding for
no combined descriptor. -/
theorem c1_video_fallback (formats : List Format) (q : String)
    (hne : q ≠ "") (h1 : q ≠ "mp3") (h2 : q ≠ "audio")
    (hnom : ∀ f ∈ formats.filter isCombined, qualityMatch q f = false) :
    (formats.filter isCombined = [] →
      resolve formats (some q) none =
        .notFound "No combined video+audio formats available. Try a different quality.") ∧
    (∀ f fs, formats.filter isCombined = f :: fs →
      ∃ r, resolve formats (some q) none = .found r ∧ r ∈ f :: fs ∧
        ∀ g ∈ f :: fs, bKey g ≤ bKey r) ∧
    resolve [ex720, ex480] (some "2160p") none = .found ex720 := by
  have hv : resolve formats (some q) none = resolveVideo formats (some q) :=
    resolve_video_branch formats (some q)
      (fun h => h1 (Option.some.inj h)) (fun h => h2 (Option.some.inj h))
  refine ⟨?_, ?_, by decide⟩
  · intro he
    rw [hv]
    unfold resolveVideo
    rw [he]
  · intro f fs hf
    have hfe : (f :: fs).filter (qualityMatch q) = [] := by
      rw [List.filter_eq_nil_iff]
      intro g hg
      have hfalse : qualityMatch q g = false := hnom g (by rw [hf]; exact hg)
      rw [hfalse]
      exact Bool.false_ne_true
    have heq : resolve formats (some q) none = .found (maxByKey bKey f fs) := by
      rw [hv, resolveVideo_cons formats q f fs hf hne, hfe]
    exact ⟨maxByKey bKey f fs, heq, maxByKey_mem bKey fs f, maxByKey_le bKey fs f⟩

/-- Witness for C1 at the spec's 2160p-over-720p/480p example. -/
theorem c1_video_fallback_witness :
    ∃ r, resolve [ex720, ex480] (some "2160p") none = .found r ∧ r ∈ [ex720, ex480] ∧
      ∀ g ∈ [ex720, ex480], bKey g ≤ bKey r :=
  (c1_video_fallback [ex720, ex480] "2160p" (by decide) (by decide) (by decide)
    (by decide)).2.1 ex720 [ex480] (by decide)

/-- C2 as written is false: with an exact `1080p` match of bitrate 1000
present, the source's single filter also admits the prefix match `1080p60`
of bitrate 5000 and returns it, although the maximum-bitrate member among
the exact matches alone is the `1080p` descriptor. -/
theorem c2_exact_pooling_counterexample :
    resolve [cexExact, cexSixty] (some "1080p") none = .found cexSixty ∧
    cexSixty.qualityLabel ≠ some "1080p" ∧
    cexExact.qualityLabel = some "1080p" ∧
    (∀ f ∈ [cexExact, cexSixty], f.qualityLabel = some "1080p" → bKey f ≤ bKey cexExact) ∧
    cexSixty ≠ cexExact := by decide

/-- C2 amended: exact and resolution-prefix matches are pooled by one
filter pass, and `resolve` returns a maximum-`bitrate` member of that
pooled matching set (not of the exact matches alone); the spec's
1080p-over-720p example still returns the 1080p descriptor. -/
theorem c2_quality_filter_best (formats : List Format) (q : String)
    (hne : q ≠ "") (h1 : q ≠ "mp3") (h2 : q ≠ "audio") :
    (∀ g gs, (formats.filter isCombined).filter (qualityMatch q) = g :: gs →
      ∃ r, resolve formats (some q) none = .found r ∧ r ∈ g :: gs ∧
        ∀ f ∈ g :: gs, bKey f ≤ bKey r) ∧
    resolve [ex1080, ex720] (some "1080p") none = .found ex1080 := by
  have hv : resolve formats (some q) none = resolveVideo formats (some q) :=
    resolve_video_branch formats (some q)
      (fun h => h1 (Option.some.inj h)) (fun h => h2 (Option.some.inj h))
  refine ⟨?_, by decide⟩
  intro g gs hgs
  rcases hcomb : formats.filter isCombined with _ | ⟨f, fs⟩
  · rw [hcomb] at hgs
    simp at hgs
  · have hgs2 : (f :: fs).filter (qualityMatch q) = g :: gs := by
      rw [← hcomb]
      exact hgs
    have heq : resolve formats (some q) none = .found (maxByKey bKey g gs) := by
      rw [hv, resolveVideo_cons formats q f fs hcomb hne, hgs2]
    exact ⟨maxByKey bKey g gs, heq, maxByKey_mem bKey gs g, maxByKey_le bKey gs g⟩

/-- Witness for the amended C2 at the spec's 1080p/720p example. -/
theorem c2_quality_filter_best_witness :
    ∃ r, resolve [ex1080, ex720] (some "1080p") none = .found r ∧ r ∈ [ex1080] ∧
      ∀ f ∈ [ex1080], bKey f ≤ bKey r :=
  (c2_quality_filter_best [ex1080, ex720] "1080p" (by decide) (by decide)
    (by decide)).1 ex1080 [] (by decide)

/-- C3 as written is false: with `requestedQuality = mp3` and a
`requestedId` that exactly matches the combined descriptor `ex720`
(itag 22), the source takes the audio branch first and returns the
audio-only descriptor, not the one whose id matches. -/
theorem c3_itag_ignored_counterexample :
    resolve [ex720, aud128] (some "mp3") (some "22") = .found aud128 ∧
    aud128.itag ≠ 22 ∧ ex720.itag = 22 ∧ ex720 ∈ [ex720, aud128] := by decide

/-- C3 amended: the `requestedId` rule is evaluated only when
`requestedQuality` is neither `mp3` nor `audio` (the audio branch wins
otherwise); in that case `resolve` returns a descriptor whose id matches
exactly, else the 400 `NotFound` outcome, regardless of the (non-audio)
requested quality. -/
theorem c3_itag_after_audio (formats : List Format) (q : Option String) (s : String) (i : Int)
    (h1 : q ≠ some "mp3") (h2 : q ≠ some "audio")
    (hs : parseIntJS s = some i) (hne : s ≠ "") :
    ((∃ f ∈ formats, f.itag = i) →
      ∃ f ∈ formats, f.itag = i ∧ resolve formats q (some s) = .found f) ∧
    ((∀ f ∈ formats, f.itag ≠ i) →
      resolve formats q (some s) = .notFound "Format not available") := by
  have hb : (s == "") = false := beq_eq_false_iff_ne.mpr hne
  have hbr : resolve formats q (some s) = resolveItag formats s := by
    simp [resolve, qualityIsAudio_eq_false h1 h2, optTruthy, hb]
  refine ⟨?_, ?_⟩
  · rintro ⟨f0, hf0, ht0⟩
    rcases hfind : formats.find? (fun f => f.itag == i) with _ | f1
    · exfalso
      have hnone := List.find?_eq_none.mp hfind f0 hf0
      rw [ht0] at hnone
      simp at hnone
    · refine ⟨f1, List.mem_of_find?_eq_some hfind, ?_, ?_⟩
      · have := List.find?_some hfind
        simpa using this
      · rw [hbr]
        unfold resolveItag
        rw [hs]
        simp [hfind]
  · intro hnone
    have hfind : formats.find? (fun f => f.itag == i) = none := by
      rw [List.find?_eq_none]
      intro f hf
      simp [hnone f hf]
    rw [hbr]
    unfold resolveItag
    rw [hs]
    simp [hfind]

/-- Witness for the amended C3: itag 22 selects `ex720` even though a
video quality is requested alongside. -/
theorem c3_itag_after_audio_witness :
    ∃ f ∈ [ex720, ex480], f.itag = 22 ∧
      resolve [ex720, ex480] (some "720p") (some "22") = .found f :=
  (c3_itag_after_audio [ex720, ex480] (some "720p") "22" 22 (by decide) (by decide)
    (by decide) (by decide)).1 ⟨ex720, by decide, rfl⟩

/-! ### Claim theorems for the URL validator -/

theorem stripLit_self (p r : List Char) : stripLit p (p ++ r) = some r := by
  induction p with
  | nil => rfl
  | cons a ps ih => simp [stripLit, ih]

theorem capAfter_all {l : List Char} (h1 : l ≠ []) (h2 : ∀ c ∈ l, idChar c = true) :
    capAfter l = some l := by
  cases l with
  | nil => exact absurd rfl h1
  | cons c cs =>
    unfold capAfter
    rw [List.takeWhile_eq_self_iff.mpr h2]

theorem matchP1At_watch (l : List Char) (h1 : l ≠ []) (h2 : ∀ c ∈ l, idChar c = true) :
    matchP1At ("youtube.com/watch?v=".data ++ l) = some l := by
  unfold matchP1At
  simp only [stripLit_self, capAfter_all h1 h2]

theorem matchP1At_short (l : List Char) (h1 : l ≠ []) (h2 : ∀ c ∈ l, idChar c = true) :
    matchP1At ("youtu.be/".data ++ l) = some l := by
  have halt1 : stripLit "youtube.com/watch?v=".data ("youtu.be/".data ++ l) = none := rfl
  unfold matchP1At matchP1Short
  simp only [halt1, stripLit_self, capAfter_all h1 h2]

theorem matchP1At_embed (l : List Char) (h1 : l ≠ []) (h2 : ∀ c ∈ l, idChar c = true) :
    matchP1At ("youtube.com/embed/".data ++ l) = some l := by
  have halt1 : stripLit "youtube.com/watch?v=".data ("youtube.com/embed/".data ++ l) = none := rfl
  have halt2 : stripLit "youtu.be/".data ("youtube.com/embed/".data ++ l) = none := rfl
  unfold matchP1At matchP1Short matchP1Embed
  simp only [halt1, halt2, stripLit_self, capAfter_all h1 h2]

theorem scanP1_of_match (s cap : List Char) (hm : matchP1At s = some cap) (hs : s ≠ []) :
    scanP1 s = some cap := by
  cases s with
  | nil => exact absurd rfl hs
  | cons c rest =>
    unfold scanP1
    simp only [hm]

theorem lit_append_ne_nil (p : List Char) (l : List Char) (hp : p ≠ []) : p ++ l ≠ [] := by
  intro h
  exact absurd (List.append_eq_nil.mp h).1 hp

theorem extract_watch (id : String) (h1 : id.data ≠ []) (h2 : ∀ c ∈ id.data, idChar c = true) :
    extractVideoId ("youtube.com/watch?v=" ++ id) = some id := by
  unfold extractVideoId
  rw [String.data_append]
  rw [scanP1_of_match _ _ (matchP1At_watch id.data h1 h2)
    (lit_append_ne_nil _ _ (by decide))]
  rfl

theorem extract_short (id : String) (h1 : id.data ≠ []) (h2 : ∀ c ∈ id.data, idChar c = true) :
    extractVideoId ("youtu.be/" ++ id) = some id := by
  unfold extractVideoId
  rw [String.data_append]
  rw [scanP1_of_match _ _ (matchP1At_short id.data h1 h2)
    (lit_append_ne_nil _ _ (by decide))]
  rfl

theorem extract_embed (id : String) (h1 : id.data ≠ []) (h2 : ∀ c ∈ id.data, idChar c = true) :
    extractVideoId ("youtube.com/embed/" ++ id) = some id := by
  unfold extractVideoId
  rw [String.data_append]
  rw [scanP1_of_match _ _ (matchP1At_embed id.data h1 h2)
    (lit_append_ne_nil _ _ (by decide))]
  rfl

theorem test_watch (id : String) : youtubeUrlTest ("youtube.com/watch?v=" ++ id) = true := rfl

theorem test_embed (id : String) : youtubeUrlTest ("youtube.com/embed/" ++ id) = true := rfl

theorem test_short (id : String) (h1 : id.data ≠ [])
    (h3 : ∀ c ∈ id.data, isLineTerm c = false) :
    youtubeUrlTest ("youtu.be/" ++ id) = true := by
  rcases hcons : id.data with _ | ⟨c, cs⟩
  · exact absurd hcons h1
  · have hc : isLineTerm c = false := h3 c (by rw [hcons]; exact List.mem_cons_self _ _)
    have key : youtubeUrlTest ("youtu.be/" ++ id) = !(isLineTerm c) := by
      unfold youtubeUrlTest hostRest schemeStripped wwwStripped
      rw [String.data_append, hcons]
      rfl
    rw [key, hc]
    rfl

theorem mem_dropWhile_of_false {p : Char → Bool} {c : Char} :
    ∀ {l : List Char}, c ∈ l → p c = false → c ∈ l.dropWhile p := by
  intro l
  induction l with
  | nil => intro h _; exact absurd h (List.not_mem_nil c)
  | cons x xs ih =>
    intro hc hp
    by_cases hx : p x = true
    · rw [List.dropWhile_cons_of_pos hx]
      rcases List.mem_cons.mp hc with h1 | h2
      · subst h1; rw [hp] at hx; exact absurd hx (by simp)
      · exact ih h2 hp
    · rw [List.dropWhile_cons_of_neg (by simpa using hx)]
      exact hc

theorem jsTrim_ne_empty {s : String} (c : Char) (hc : c ∈ s.data) (hw : jsWS c = false) :
    jsTrim s ≠ "" := by
  intro h
  have hdata : ((s.data.dropWhile jsWS).reverse.dropWhile jsWS).reverse = [] :=
    congrArg String.data h
  have hmem1 : c ∈ s.data.dropWhile jsWS := mem_dropWhile_of_false hc hw
  have hmem2 : c ∈ (s.data.dropWhile jsWS).reverse := List.mem_reverse.mpr hmem1
  have hmem3 : c ∈ (s.data.dropWhile jsWS).reverse.dropWhile jsWS :=
    mem_dropWhile_of_false hmem2 hw
  have hmem4 : c ∈ ((s.data.dropWhile jsWS).reverse.dropWhile jsWS).reverse :=
    List.mem_reverse.mpr hmem3
  rw [hdata] at hmem4
  exact absurd hmem4 (List.not_mem_nil c)

theorem trim_lit_append (p : String) (id : String) (hy : 'y' ∈ p.data) :
    jsTrim (p ++ id) ≠ "" := by
  apply jsTrim_ne_empty 'y'
  · rw [String.data_append]
    exact List.mem_append_left _ hy
  · rfl

theorem validate_watch (id : String) (h1 : id.data ≠ []) (h2 : ∀ c ∈ id.data, idChar c = true) :
    validateYouTubeUrl ("youtube.com/watch?v=" ++ id) = .valid id := by
  unfold validateYouTubeUrl
  rw [if_neg (trim_lit_append _ id (by decide)), if_pos (test_watch id)]
  rw [extract_watch id h1 h2]

theorem validate_short (id : String) (h1 : id.data ≠ []) (h2 : ∀ c ∈ id.data, idChar c = true)
    (h3 : ∀ c ∈ id.data, isLineTerm c = false) :
    validateYouTubeUrl ("youtu.be/" ++ id) = .valid id := by
  unfold validateYouTubeUrl
  rw [if_neg (trim_lit_append _ id (by decide)), if_pos (test_short id h1 h3)]
  rw [extract_short id h1 h2]

theorem validate_embed (id : String) (h1 : id.data ≠ []) (h2 : ∀ c ∈ id.data, idChar c = true) :
    validateYouTubeUrl ("youtube.com/embed/" ++ id) = .valid id := by
  unfold validateYouTubeUrl
  rw [if_neg (trim_lit_append _ id (by decide)), if_pos (test_embed id)]
  rw [extract_embed id h1 h2]

theorem invalid_of_test_false (url : String) (h : youtubeUrlTest url = false) :
    ∃ m, validateYouTubeUrl url = .invalid m := by
  unfold validateYouTubeUrl
  by_cases ht : jsTrim url = ""
  · exact ⟨_, if_pos ht⟩
  · rw [if_neg ht, h]
    exact ⟨_, rfl⟩

theorem invalid_of_extract_none (url : String) (h : extractVideoId url = none) :
    ∃ m, validateYouTubeUrl url = .invalid m := by
  unfold validateYouTubeUrl
  by_cases ht : jsTrim url = ""
  · exact ⟨_, if_pos ht⟩
  · rw [if_neg ht]
    by_cases hr : youtubeUrlTest url = true
    · rw [if_pos hr, h]
      exact ⟨_, rfl⟩
    · rw [if_neg hr]
      exact ⟨_, rfl⟩

/-- C7: the three platform URL shapes carrying an identifier (non-empty,
without `&`, `?`, `#`, and without ECMAScript line terminators, which the
regex metacharacter `.` cannot match) all validate to that identical
identifier; the empty string, a non-platform host, a platform URL without
an extractable id, and a short-link whose id starts with a carriage return
(rejected by the host regex's `.+`) are all `Invalid`, and every string
failing the host regex or the id extraction is `Invalid`. -/
theorem c7_validator (id : String) (h1 : id ≠ "")
    (h2 : ∀ c ∈ id.data, idChar c = true)
    (h3 : ∀ c ∈ id.data, isLineTerm c = false) :
    validateYouTubeUrl ("youtube.com/watch?v=" ++ id) = .valid id ∧
    validateYouTubeUrl ("youtu.be/" ++ id) = .valid id ∧
    validateYouTubeUrl ("youtube.com/embed/" ++ id) = .valid id ∧
    validateYouTubeUrl "" = .invalid "Please enter a YouTube URL" ∧
    validateYouTubeUrl "https://vimeo.com/123" =
      .invalid "Please enter a valid YouTube URL" ∧
    validateYouTubeUrl "https://www.youtube.com/watch?x=1" =
      .invalid "Could not extract video ID from URL" ∧
    validateYouTubeUrl "youtu.be/\rab" =
      .invalid "Please enter a valid YouTube URL" ∧
    (∀ url : String, youtubeUrlTest url = false →
      ∃ m, validateYouTubeUrl url = .invalid m) ∧
    (∀ url : String, extractVideoId url = none →
      ∃ m, validateYouTubeUrl url = .invalid m) := by
  have hd : id.data ≠ [] := fun h => h1 (by
    have : id = ⟨[]⟩ := by
      cases id with
      | mk d => simp at h; rw [h]
    exact this)
  exact ⟨validate_watch id hd h2, validate_short id hd h2 h3, validate_embed id hd h2,
    by decide, by decide, by decide, by decide,
    invalid_of_test_false, invalid_of_extract_none⟩

/-- Witness for C7 at a concrete video identifier. -/
theorem c7_validator_witness :
    validateYouTubeUrl ("youtube.com/watch?v=" ++ "dQw4w9WgXcQ") = .valid "dQw4w9WgXcQ" ∧
    validateYouTubeUrl ("youtu.be/" ++ "dQw4w9WgXcQ") = .valid "dQw4w9WgXcQ" :=
  ⟨(c7_validator "dQw4w9WgXcQ" (by decide) (by decide) (by decide)).1,
   (c7_validator "dQw4w9WgXcQ" (by decide) (by decide) (by decide)).2.1⟩

/-! ### Claim theorem for the metadata projection -/

theorem addToSet_nodup {l : List String} (x : String) (h : l.Nodup) : (addToSet l x).Nodup := by
  unfold addToSet
  by_cases hc : l.contains x = true
  · rw [if_pos hc]; exact h
  · rw [if_neg hc]
    refine List.Nodup.append h (List.nodup_singleton x) ?_
    intro a ha hb
    have hx : a = x := List.mem_singleton.mp hb
    subst hx
    exact absurd (List.elem_eq_true_of_mem ha) hc

theorem foldl_collect_nodup (formats : List InfoFormat) :
    ∀ acc : List String, acc.Nodup → (formats.foldl collectStep acc).Nodup := by
  induction formats with
  | nil => intro acc h; exact h
  | cons f fs ih =>
    intro acc h
    rw [List.foldl_cons]
    apply ih
    unfold collectStep
    by_cases hc : (f.hasVideo && !(f.quality == "")) = true
    · rw [if_pos hc]; exact addToSet_nodup _ h
    · rw [if_neg hc]; exact h

theorem preQualities_nodup (formats : List InfoFormat) : (preQualities formats).Nodup := by
  unfold preQualities
  by_cases hc : formats.any (fun f => f.hasAudio && !f.hasVideo) = true
  · rw [if_pos hc]
    exact addToSet_nodup _ (foldl_collect_nodup formats [] List.nodup_nil)
  · rw [if_neg hc]
    exact foldl_collect_nodup formats [] List.nodup_nil

theorem jsIndexOf_ge (l : List String) (x : String) : -1 ≤ jsIndexOf l x := by
  induction l with
  | nil => simp [jsIndexOf]
  | cons y ys ih =>
    unfold jsIndexOf
    split_ifs with h1 h2 <;> omega

theorem jsIndexOf_lt_length (l : List String) (x : String) :
    jsIndexOf l x < (l.length : Int) := by
  induction l with
  | nil => simp [jsIndexOf]
  | cons y ys ih =>
    unfold jsIndexOf
    simp only [List.length_cons]
    split_ifs with h1 h2 <;> push_cast <;> omega

theorem jsIndexOf_get (l : List String) (x : String) :
    ∀ k : Nat, jsIndexOf l x = (k : Int) → l[k]? = some x := by
  induction l with
  | nil =>
    intro k h
    simp [jsIndexOf] at h
  | cons y ys ih =>
    intro k h
    unfold jsIndexOf at h
    by_cases h1 : (y == x) = true
    · rw [if_pos h1] at h
      have hk : k = 0 := by omega
      subst hk
      simp only [List.getElem?_cons_zero]
      exact congrArg some (eq_of_beq h1)
    · rw [if_neg h1] at h
      by_cases h2 : jsIndexOf ys x = -1
      · rw [if_pos h2] at h; omega
      · rw [if_neg h2] at h
        have hge := jsIndexOf_ge ys x
        have hk : 1 ≤ k := by omega
        obtain ⟨k2, rfl⟩ : ∃ k2, k = k2 + 1 := ⟨k - 1, by omega⟩
        have hys : jsIndexOf ys x = (k2 : Int) := by push_cast at h ⊢; omega
        rw [List.getElem?_cons_succ]
        exact ih k2 hys

theorem orderIndex_lt_mp3 (x : String) (h : x ≠ "mp3") : orderIndex x < 8 := by
  have hlt := jsIndexOf_lt_length qualityOrderList x
  have hge := jsIndexOf_ge qualityOrderList x
  have hlen : (qualityOrderList.length : Int) = 9 := by decide
  rw [hlen] at hlt
  by_cases h8 : orderIndex x = 8
  · exfalso
    have hget := jsIndexOf_get qualityOrderList x 8 h8
    have hm : qualityOrderList[8]? = some "mp3" := by decide
    rw [hm] at hget
    exact h (Option.some.inj hget).symm
  · unfold orderIndex at h8 ⊢
    omega

/-- C5: `getAvailableQualities` never emits duplicate tokens; its output
is sorted by the fixed-order comparator key (so tokens of the fixed
descending-resolution list appear in that order); and `mp3`, when present,
is the last element, after every video token. -/
theorem c5_available_qualities (formats : List InfoFormat) :
    (getAvailableQualities formats).Nodup ∧
    List.Pairwise qualityLE (getAvailableQualities formats) ∧
    ("mp3" ∈ getAvailableQualities formats →
      ∃ l, getAvailableQualities formats = l ++ ["mp3"]) := by
  have hperm := List.perm_insertionSort qualityLE (preQualities formats)
  have hnodup : (getAvailableQualities formats).Nodup :=
    hperm.symm.nodup (preQualities_nodup formats)
  have hsorted : List.Pairwise qualityLE (getAvailableQualities formats) :=
    List.sorted_insertionSort qualityLE (preQualities formats)
  refine ⟨hnodup, hsorted, ?_⟩
  intro hm
  obtain ⟨s, t, hst⟩ := List.append_of_mem hm
  have htail : List.Pairwise qualityLE ("mp3" :: t) := by
    rw [hst] at hsorted
    exact (List.pairwise_append.mp hsorted).2.1
  have hnm : "mp3" ∉ t := by
    rw [hst] at hnodup
    have hx := (List.nodup_append.mp hnodup).2.1
    exact (List.nodup_cons.mp hx).1
  cases t with
  | nil => exact ⟨s, hst⟩
  | cons y ys =>
    exfalso
    have hle : qualityLE "mp3" y := (List.pairwise_cons.mp htail).1 y (List.mem_cons_self _ _)
    have hy : y ≠ "mp3" := fun h => hnm (h ▸ List.mem_cons_self _ _)
    have hlty := orderIndex_lt_mp3 y hy
    have h8 : orderIndex "mp3" = 8 := by decide
    unfold qualityLE at hle
    omega

/-- Witness for C5: one combined 720p format plus one audio-only format
produce the duplicate-free ordered list with `mp3` last. -/
theorem c5_available_qualities_witness :
    ∃ l, getAvailableQualities
      [⟨"720p", true, true⟩, ⟨"480p", false, true⟩] = l ++ ["mp3"] :=
  (c5_available_qualities [⟨"720p", true, true⟩, ⟨"480p", false, true⟩]).2.2 (by decide)

/-! ### Claim theorems for duration formatting -/

theorem intOfNat_fdiv (n k : Nat) :
    Int.fdiv (Int.ofNat n) (Int.ofNat k) = Int.ofNat (n / k) :=
  (Int.ofNat_fdiv n k).symm

theorem intOfNat_tmod (n k : Nat) :
    Int.tmod (Int.ofNat n) (Int.ofNat k) = Int.ofNat (n % k) :=
  (Int.ofNat_tmod n k).symm

theorem toString_intOfNat (n : Nat) : toString (Int.ofNat n) = toString n := rfl

theorem formatDuration_ofNat (n : Nat) :
    formatDuration (Int.ofNat n) =
      if 0 < n / 3600 then
        toString (n / 3600) ++ ":" ++ jsPadStart2 (toString (n % 3600 / 60)) ++ ":" ++
          jsPadStart2 (toString (n % 60))
      else
        toString (n % 3600 / 60) ++ ":" ++ jsPadStart2 (toString (n % 60)) := by
  have h1 : Int.fdiv (Int.ofNat n) 3600 = Int.ofNat (n / 3600) := intOfNat_fdiv n 3600
  have h2 : Int.tmod (Int.ofNat n) 3600 = Int.ofNat (n % 3600) := intOfNat_tmod n 3600
  have h3 : Int.fdiv (Int.ofNat (n % 3600)) 60 = Int.ofNat (n % 3600 / 60) :=
    intOfNat_fdiv (n % 3600) 60
  have h4 : Int.tmod (Int.ofNat n) 60 = Int.ofNat (n % 60) := intOfNat_tmod n 60
  unfold formatDuration
  rw [h1, h2, h3, h4]
  simp only [toString_intOfNat]
  by_cases hc : 0 < n / 3600
  · have hc2 : 0 < Int.ofNat (n / 3600) := Int.ofNat_lt.mpr hc
    rw [if_pos hc2, if_pos hc]
  · have hc2 : ¬0 < Int.ofNat (n / 3600) := fun hlt => hc (Int.ofNat_lt.mp hlt)
    rw [if_neg hc2, if_neg hc]

theorem pad2_spec (m : Nat) (h : m < 60) : jsPadStart2 (toString m) = specTwoDigit m := by
  interval_cases m <;> rfl

/-- C6: duration formatting renders `H:MM:SS` exactly when the duration is
at least 3600 seconds and `M:SS` otherwise, with two-digit zero-padded
minute/second fields and the decomposition being the true
hours/minutes/seconds of the input; 3725 renders as `1:02:05`, 95 as
`1:35`, and a non-numeric or missing duration as `N/A` without a crash
(the model is a total function). -/
theorem c6_duration_format :
    displayDuration (some "3725") = "1:02:05" ∧
    displayDuration (some "95") = "1:35" ∧
    displayDuration (some "abc") = "N/A" ∧
    displayDuration none = "N/A" ∧
    (∀ s : String, parseIntJS s = none → displayDuration (some s) = "N/A") ∧
    (∀ n : Nat, 3600 ≤ n →
      ∃ h m sec, n = 3600 * h + 60 * m + sec ∧ 0 < h ∧ m < 60 ∧ sec < 60 ∧
        formatDuration (Int.ofNat n) =
          toString h ++ ":" ++ specTwoDigit m ++ ":" ++ specTwoDigit sec) ∧
    (∀ n : Nat, 0 < n → n < 3600 →
      ∃ m sec, n = 60 * m + sec ∧ m < 60 ∧ sec < 60 ∧
        formatDuration (Int.ofNat n) = toString m ++ ":" ++ specTwoDigit sec) := by
  refine ⟨by decide, by decide, by decide, rfl, ?_, ?_, ?_⟩
  · intro s h
    simp [displayDuration, h]
  · intro n hn
    have hm60 : n % 3600 / 60 < 60 := Nat.div_lt_of_lt_mul (by
      have := Nat.mod_lt n (show 0 < 3600 by norm_num)
      omega)
    have hs60 : n % 60 < 60 := Nat.mod_lt _ (by norm_num)
    have hh : 0 < n / 3600 := Nat.div_pos hn (by norm_num)
    refine ⟨n / 3600, n % 3600 / 60, n % 60, ?_, hh, hm60, hs60, ?_⟩
    · have hd1 := Nat.div_add_mod n 3600
      have hd2 := Nat.div_add_mod (n % 3600) 60
      have hd3 : n % 3600 % 60 = n % 60 := Nat.mod_mod_of_dvd n (by norm_num)
      omega
    · rw [formatDuration_ofNat, if_pos hh, pad2_spec _ hm60, pad2_spec _ hs60]
  · intro n hpos hlt
    have hmod : n % 3600 = n := Nat.mod_eq_of_lt hlt
    have hdiv : n / 3600 = 0 := Nat.div_eq_of_lt hlt
    have hs60 : n % 60 < 60 := Nat.mod_lt _ (by norm_num)
    have hm60 : n / 60 < 60 := Nat.div_lt_of_lt_mul (by omega)
    refine ⟨n / 60, n % 60, ?_, hm60, hs60, ?_⟩
    · have := Nat.div_add_mod n 60
      omega
    · rw [formatDuration_ofNat, if_neg (by simp [hdiv]), hmod, pad2_spec _ hs60]

/-- Witness for C6 at the spec's 3725-second example. -/
theorem c6_duration_format_witness :
    ∃ h m sec, 3725 = 3600 * h + 60 * m + sec ∧ 0 < h ∧ m < 60 ∧ sec < 60 ∧
      formatDuration (Int.ofNat 3725) =
        toString h ++ ":" ++ specTwoDigit m ++ ":" ++ specTwoDigit sec :=
  c6_duration_format.2.2.2.2.2.1 3725 (by norm_num)

/-- C10: a reported duration of exactly `"0"` parses to the falsy value 0,
so the frontend skips formatting and shows the unavailable marker `N/A`
rather than the `0:00` that `formatDuration` itself would produce. -/
theorem c10_zero_duration :
    displayDuration (some "0") = "N/A" ∧
    formatDuration 0 = "0:00" ∧
    displayDuration (some "0") ≠ formatDuration 0 := by decide

/-! ### Claim theorem for filename construction -/

/-- C8: the sanitized-title portion of every download filename contains
only ASCII alphanumerics and underscores and never exceeds 100 characters;
the audio filename is the sanitized title plus `.mp3`, the itag filename
the sanitized title plus the descriptor's container extension, and the
video filename starts with the sanitized title and ends with the
descriptor's container extension. -/
theorem c8_filename_sanitization (title : String) (q : Option String) (f : Format) :
    (∀ c ∈ (sanitizeTitle title).data,
      ('a' ≤ c ∧ c ≤ 'z') ∨ ('A' ≤ c ∧ c ≤ 'Z') ∨ ('0' ≤ c ∧ c ≤ '9') ∨ c = '_') ∧
    (sanitizeTitle title).length ≤ 100 ∧
    audioFilename title = sanitizeTitle title ++ ".mp3" ∧
    itagFilename title f = sanitizeTitle title ++ "." ++ f.container ∧
    (∃ mid, videoFilename title q f = sanitizeTitle title ++ mid ++ ("." ++ f.container)) := by
  refine ⟨?_, ?_, rfl, rfl, ?_⟩
  · intro c hc
    have hc2 : c ∈ (title.data.map sanitizeChar).take 100 := hc
    have hc3 := List.mem_of_mem_take hc2
    obtain ⟨c0, _, rfl⟩ := List.mem_map.mp hc3
    unfold sanitizeChar
    by_cases h : isAlnumJS c0 = true
    · rw [if_pos h]
      unfold isAlnumJS at h
      simp only [Bool.or_eq_true, Bool.and_eq_true, decide_eq_true_eq] at h
      rcases h with (h | h) | h
      · exact Or.inl h
      · exact Or.inr (Or.inl h)
      · exact Or.inr (Or.inr (Or.inl h))
    · rw [if_neg h]
      exact Or.inr (Or.inr (Or.inr rfl))
  · show ((title.data.map sanitizeChar).take 100).asString.length ≤ 100
    rw [List.length_asString, List.length_take]
    omega
  · refine ⟨"_" ++ jsOrString f.qualityLabel (jsOrString q "video"), ?_⟩
    unfold videoFilename
    simp [String.append_assoc]
